import Mathlib

/-!
Shallow embedding of the dataflow graph engine in `src/core/graph.rs`
(`NodeGraph` and its operations), together with the `petgraph`
`Graph<NodeId, ConnectionId, Directed>` structure it is built on.

Modelling conventions:
* `NodeId` and `ConnectionId` are 128-bit random UUIDs in the source; they are
  opaque ids with equality, modelled as `Nat`.  `ConnectionId::new()` (which
  the allocator guarantees fresh) is modelled by a counter `nextConn` threaded
  through the `NodeGraph` state.
* `petgraph::Graph` stores vertices in a vector (`NodeIndex` = position) and
  edges in a vector with per-vertex adjacency lists in which the most recently
  added edge comes first; removing an edge or a vertex preserves the relative
  adjacency order of the surviving edges.  We model the edge store as a list
  in insertion order (newest last); iterating a vertex's outgoing edges
  newest-first is therefore iterating the matching sublist in reverse, and
  `find_edge` returns the newest matching edge.
* `Graph::remove_node` swap-removes: the last vertex adopts the removed index
  and the edges that referred to the old last index are rewired; this is
  modelled exactly.
* `Graph::add_edge` panics when an endpoint index is out of bounds, and
  `HashMap` indexing with `[]` panics on a missing key; a panic is modelled
  as `Option.none` bubbling out of the operation.
* `HashMap`s are modelled as association lists (insert replaces an existing
  key, otherwise appends); `HashSet` as a list without duplicates.  The
  claims under study only depend on the key/value content of these containers,
  never on their iteration order.
* The loops in `would_create_cycle` (explicit-stack DFS), Kahn's algorithm and
  the recursion of `propagate_dirty_downstream` always terminate because each
  step either consumes a stack/queue entry whose total number of insertions is
  bounded, or strictly grows a set bounded by the graph; they are written with
  a fuel parameter larger than those bounds, so the fuel-exhaustion branch is
  never taken at the arguments the operations pass.
-/

/-- The `DataType` enumeration from `src/core/mod.rs` (the engine only stores it). -/
inductive DataType where
  | Float | Vector2 | Vector3 | Vector4 | Color | AudioBuffer | Image
  | String | Boolean | Model | Conditioning | Latent | Clip | VAE | Mask
  | Audio | Array | Integer | Mesh | Scene | Transform
deriving DecidableEq, Repr

/-- The `NodeConnection` record from `src/core/graph.rs`. -/
structure NodeConnection where
  id : Nat
  from_node : Nat
  from_port : Nat
  to_node : Nat
  to_port : Nat
  data_type : DataType
deriving DecidableEq, Repr

/-- The `GraphError` enumeration from `src/core/graph.rs`. -/
inductive GraphError where
  | NodeNotFound (id : Nat)
  | NodeAlreadyExists (id : Nat)
  | ConnectionNotFound (id : Nat)
  | CycleDetected
  | PortTypeMismatch
  | InvalidPortIndex
deriving DecidableEq, Repr

/-- A directed `petgraph` edge: endpoint vertex positions and the
`ConnectionId` weight. -/
structure PEdge where
  source : Nat
  target : Nat
  weight : Nat
deriving DecidableEq, Repr

/-- The `petgraph::Graph<NodeId, ConnectionId, Directed>` store: vertex
weights by position, and the edge list in insertion order (newest last). -/
structure PGraph where
  nodes : List Nat
  edges : List PEdge
deriving DecidableEq, Repr

/-- Model of `Graph::new()`. -/
def PGraph.empty : PGraph := { nodes := [], edges := [] }

/-- Model of `Graph::add_node`: push the weight, the new vertex gets the next index. -/
def PGraph.addNode (g : PGraph) (w : Nat) : PGraph :=
  { g with nodes := g.nodes ++ [w] }

/-- Model of `Graph::add_edge` after its bounds check (the caller models the panic). -/
def PGraph.addEdge (g : PGraph) (a b w : Nat) : PGraph :=
  { g with edges := g.edges ++ [{ source := a, target := b, weight := w }] }

/-- Outgoing edges of vertex `i`, in adjacency order (newest first). -/
def PGraph.outEdges (g : PGraph) (i : Nat) : List PEdge :=
  (g.edges.filter (fun e => e.source = i)).reverse

/-- Model of `neighbors_directed(i, Outgoing)`: targets of outgoing edges, newest
first, one entry per edge (parallel edges repeat their target). -/
def PGraph.outNeighbors (g : PGraph) (i : Nat) : List Nat :=
  (g.outEdges i).map (fun e => e.target)

/-- Model of `neighbors_directed(i, Incoming).count()`: the in-degree of vertex `i`,
counted with edge multiplicity. -/
def PGraph.inDegree (g : PGraph) (i : Nat) : Nat :=
  (g.edges.filter (fun e => e.target = i)).length

/-- Model of `Graph::find_edge(a, b)`: the first outgoing edge of `a` with target `b`
in adjacency order, i.e. the most recently inserted such edge. -/
def PGraph.findEdge (g : PGraph) (a b : Nat) : Option PEdge :=
  (g.outEdges a).find? (fun e => e.target = b)

/-- Remove the most recently inserted edge `a -> b` (what
`remove_edge(find_edge(a,b))` deletes), keeping the others in order. -/
def PGraph.removeFoundEdge (g : PGraph) (a b : Nat) : PGraph :=
  { g with
    edges := (g.edges.reverse.eraseP (fun e => e.source = a && e.target = b)).reverse }

/-- Model of `Graph::remove_node`: no-op on an out-of-bounds index; otherwise delete
the incident edges, swap-remove the vertex (the last vertex adopts index `a`)
and rewire the edges that mentioned the old last index. -/
def PGraph.removeNode (g : PGraph) (a : Nat) : PGraph :=
  if h : a < g.nodes.length then
    let survivors := g.edges.filter (fun e => e.source ≠ a ∧ e.target ≠ a)
    let lastIdx := g.nodes.length - 1
    let lastW := g.nodes.getLast (by intro hnil; simp [hnil] at h)
    let nodes' := (g.nodes.set a lastW).take lastIdx
    let rename := fun i => if i = lastIdx then a else i
    let edges' := survivors.map
      (fun e => { e with source := rename e.source, target := rename e.target })
    { nodes := nodes', edges := edges' }
  else g

/-- Association-list lookup (`HashMap::get`). -/
def alLookup (l : List (Nat × α)) (k : Nat) : Option α :=
  (l.find? (fun p => p.1 = k)).map (fun p => p.2)

/-- Association-list insert (`HashMap::insert`): replace the entry for an
existing key, otherwise append. -/
def alInsert (l : List (Nat × α)) (k : Nat) (v : α) : List (Nat × α) :=
  if (l.find? (fun p => p.1 = k)).isSome then
    l.map (fun p => if p.1 = k then (k, v) else p)
  else l ++ [(k, v)]

/-- Association-list removal (`HashMap::remove`). -/
def alRemove (l : List (Nat × α)) (k : Nat) : List (Nat × α) :=
  l.filter (fun p => p.1 ≠ k)

/-- Model of `HashSet::insert`: the new set and whether the element was fresh. -/
def dsInsert (s : List Nat) (x : Nat) : List Nat × Bool :=
  if x ∈ s then (s, false) else (s ++ [x], true)

/-- Model of `HashSet::remove`. -/
def dsRemove (s : List Nat) (x : Nat) : List Nat :=
  s.filter (fun y => y ≠ x)

/-- The explicit-stack DFS loop of `NodeGraph::would_create_cycle`: search
from the stack for `fromIdx`, keeping a visited set.  Each loop iteration
pops one entry and at most `edges.length + 1` entries are ever pushed, so
with the fuel the caller passes the `0` branch is unreachable; it returns
`true` there so that a `false` answer always means the search ran to
completion without finding `fromIdx`. -/
def dfsLoop (g : PGraph) (fromIdx : Nat) :
    Nat → List Nat → List Nat → Bool
  | 0, _, _ => true
  | _ + 1, [], _ => false
  | fuel + 1, current :: stack, visited =>
    if current = fromIdx then true
    else if current ∈ visited then dfsLoop g fromIdx fuel stack visited
    else
      dfsLoop g fromIdx fuel
        (((g.outNeighbors current).filter (fun n => n ∉ visited)) ++ stack)
        (current :: visited)

/-- Model of `NodeGraph::would_create_cycle`: DFS from `toIdx` over outgoing edges; the
prospective edge closes a cycle iff `fromIdx` is reachable. -/
def would_create_cycle (g : PGraph) (fromIdx toIdx : Nat) : Bool :=
  dfsLoop g fromIdx (g.nodes.length + g.edges.length + 2) [toIdx] []

/-- One pass of Kahn's algorithm processing vertex `q`: append its node id to
the order when the index is in `index_to_node`, decrement each successor's
stored in-degree (once per edge) and enqueue the ones that reach zero. -/
def kahnStep (g : PGraph) (i2n : List (Nat × Nat)) (q : Nat)
    (indeg : List (Nat × Nat)) (queue acc : List Nat) :
    List (Nat × Nat) × List Nat × List Nat :=
  let acc' := match alLookup i2n q with
    | some nid => acc ++ [nid]
    | none => acc
  let step := fun (st : List (Nat × Nat) × List Nat) (n : Nat) =>
    match alLookup st.1 n with
    | some d =>
      let d' := d - 1
      (alInsert st.1 n d', if d' = 0 then st.2 ++ [n] else st.2)
    | none => st
  let st := (g.outNeighbors q).foldl step (indeg, queue)
  (st.1, st.2, acc')

/-- The `while let Some(current) = queue.pop_front()` loop of
`update_evaluation_order`.  Every vertex is enqueued at most once, so fuel
`nodes.length + 1` is never exhausted. -/
def kahnLoop (g : PGraph) (i2n : List (Nat × Nat)) :
    Nat → List (Nat × Nat) → List Nat → List Nat → List Nat
  | 0, _, _, acc => acc
  | _ + 1, _, [], acc => acc
  | fuel + 1, indeg, q :: queue, acc =>
    let st := kahnStep g i2n q indeg queue acc
    kahnLoop g i2n fuel st.1 st.2.1 st.2.2

/-- Model of `NodeGraph::update_evaluation_order` (Kahn's algorithm): in-degrees of
all vertices, seed the queue with the zero in-degree ones in index order,
then run the loop. -/
def computeEvaluationOrder (g : PGraph) (i2n : List (Nat × Nat)) : List Nat :=
  let indices := List.range g.nodes.length
  let indeg := indices.map (fun i => (i, g.inDegree i))
  let queue := indices.filter (fun i => g.inDegree i = 0)
  kahnLoop g i2n (g.nodes.length + 1) indeg queue []

/-- Model of `NodeGraph::propagate_dirty_downstream` together with its inner
`for downstream_node in downstream_nodes` loop, as one structurally
fuel-recursive function (an `inl` argument is a call of the recursive
function on a node, an `inr` argument is the loop over the remaining
downstream list): resolve the node through `node_to_index`, collect the
downstream ids through `index_to_node`, insert each into the dirty set and
recurse on the freshly inserted ones.  Every recursive call of the source
follows a fresh insertion of a value of `index_to_node` and every loop level
is bounded by the out-degree, so the call depth is bounded and the fuel the
caller passes is never exhausted. -/
def propagateGo (g : PGraph) (n2i i2n : List (Nat × Nat)) :
    Nat → Sum Nat (List Nat) → List Nat → List Nat
  | 0, _, dirty => dirty
  | fuel + 1, .inl node, dirty =>
    match alLookup n2i node with
    | none => dirty
    | some idx =>
      propagateGo g n2i i2n fuel
        (.inr ((g.outNeighbors idx).filterMap (alLookup i2n))) dirty
  | _ + 1, .inr [], dirty => dirty
  | fuel + 1, .inr (dn :: rest), dirty =>
    let ins := dsInsert dirty dn
    if ins.2 then
      propagateGo g n2i i2n fuel (.inr rest)
        (propagateGo g n2i i2n fuel (.inl dn) ins.1)
    else
      propagateGo g n2i i2n fuel (.inr rest) dirty

/-- Fuel that the call depth of `propagate_dirty_downstream` never reaches:
at most `i2n.length + 1` nested recursive calls, each looping over at most
`edges.length` downstream entries. -/
def propagateFuel (g : PGraph) (i2n : List (Nat × Nat)) : Nat :=
  (i2n.length + 1) * (g.edges.length + 2) + 2

/-- Model of `NodeGraph::propagate_dirty_downstream` (entry point). -/
def propagateDirty (g : PGraph) (n2i i2n : List (Nat × Nat))
    (node : Nat) (dirty : List Nat) : List Nat :=
  propagateGo g n2i i2n (propagateFuel g i2n) (.inl node) dirty

/-- The `NodeGraph` resource state from `src/core/graph.rs`, plus the
connection-id allocator counter (see the header comment). -/
structure NodeGraph where
  graph : PGraph
  node_to_index : List (Nat × Nat)
  index_to_node : List (Nat × Nat)
  connections : List (Nat × NodeConnection)
  evaluation_order : List Nat
  dirty_nodes : List Nat
  nextConn : Nat
deriving DecidableEq, Repr

/-- Model of `NodeGraph::default()`. -/
def NodeGraph.new : NodeGraph :=
  { graph := PGraph.empty, node_to_index := [], index_to_node := []
    connections := [], evaluation_order := [], dirty_nodes := [], nextConn := 0 }

/-- Model of `NodeGraph::update_evaluation_order` as a state update. -/
def NodeGraph.updateEvaluationOrder (s : NodeGraph) : NodeGraph :=
  { s with evaluation_order := computeEvaluationOrder s.graph s.index_to_node }

/-- Model of `NodeGraph::mark_dirty`. -/
def NodeGraph.markDirty (s : NodeGraph) (node_id : Nat) : NodeGraph :=
  let dirty := (dsInsert s.dirty_nodes node_id).1
  { s with
    dirty_nodes :=
      propagateDirty s.graph s.node_to_index s.index_to_node node_id dirty }

/-- Model of `NodeGraph::clear_dirty`. -/
def NodeGraph.clearDirty (s : NodeGraph) (node_id : Nat) : NodeGraph :=
  { s with dirty_nodes := dsRemove s.dirty_nodes node_id }

/-- Model of `NodeGraph::dirty_nodes` (the observable dirty set). -/
def NodeGraph.dirtyNodes (s : NodeGraph) : List Nat := s.dirty_nodes

/-- Model of `NodeGraph::evaluation_order`. -/
def NodeGraph.evaluationOrder (s : NodeGraph) : List Nat := s.evaluation_order

/-- A node id is live when `node_to_index` contains it (the check every
operation uses). -/
def NodeGraph.isLive (s : NodeGraph) (node_id : Nat) : Bool :=
  (alLookup s.node_to_index node_id).isSome

/-- Model of `NodeGraph::add_node`. -/
def NodeGraph.addNode (s : NodeGraph) (node_id : Nat) :
    Except GraphError Unit × NodeGraph :=
  if (alLookup s.node_to_index node_id).isSome then
    (.error (.NodeAlreadyExists node_id), s)
  else
    let index := s.graph.nodes.length
    let s₁ := { s with
      graph := s.graph.addNode node_id
      node_to_index := alInsert s.node_to_index node_id index
      index_to_node := alInsert s.index_to_node index node_id }
    let s₂ := s₁.updateEvaluationOrder
    let s₃ := s₂.markDirty node_id
    (.ok (), s₃)

/-- Model of `NodeGraph::remove_node`. -/
def NodeGraph.removeNode (s : NodeGraph) (node_id : Nat) :
    Except GraphError Unit × NodeGraph :=
  match alLookup s.node_to_index node_id with
  | none => (.error (.NodeNotFound node_id), s)
  | some index =>
    let s₁ := { s with
      node_to_index := alRemove s.node_to_index node_id
      index_to_node := alRemove s.index_to_node index
      connections := s.connections.filter
        (fun p => ¬(p.2.from_node = node_id ∨ p.2.to_node = node_id))
      graph := s.graph.removeNode index
      dirty_nodes := dsRemove s.dirty_nodes node_id }
    (.ok (), s₁.updateEvaluationOrder)

/-- Model of `NodeGraph::add_connection`; `none` models the `add_edge` panic on an
out-of-bounds vertex index. -/
def NodeGraph.addConnection (s : NodeGraph)
    (from_node from_port to_node to_port : Nat) (data_type : DataType) :
    Option (Except GraphError Nat × NodeGraph) :=
  match alLookup s.node_to_index from_node with
  | none => some (.error (.NodeNotFound from_node), s)
  | some from_index =>
    match alLookup s.node_to_index to_node with
    | none => some (.error (.NodeNotFound to_node), s)
    | some to_index =>
      if would_create_cycle s.graph from_index to_index then
        some (.error .CycleDetected, s)
      else if from_index < s.graph.nodes.length ∧
          to_index < s.graph.nodes.length then
        let connection_id := s.nextConn
        let connection : NodeConnection :=
          { id := connection_id, from_node := from_node, from_port := from_port
            to_node := to_node, to_port := to_port, data_type := data_type }
        let s₁ := { s with
          graph := s.graph.addEdge from_index to_index connection_id
          connections := alInsert s.connections connection_id connection
          nextConn := s.nextConn + 1 }
        let s₂ := s₁.markDirty to_node
        some (.ok connection_id, s₂.updateEvaluationOrder)
      else none

/-- Model of `NodeGraph::remove_connection`; `none` models the panicking `HashMap`
index when an endpoint is missing from `node_to_index`. -/
def NodeGraph.removeConnection (s : NodeGraph) (connection_id : Nat) :
    Option (Except GraphError Unit × NodeGraph) :=
  match alLookup s.connections connection_id with
  | none => some (.error (.ConnectionNotFound connection_id), s)
  | some connection =>
    match alLookup s.node_to_index connection.from_node,
        alLookup s.node_to_index connection.to_node with
    | some from_index, some to_index =>
      let g' := match s.graph.findEdge from_index to_index with
        | some _ => s.graph.removeFoundEdge from_index to_index
        | none => s.graph
      let s₁ := { s with
        connections := alRemove s.connections connection_id
        graph := g' }
      let s₂ := s₁.markDirty connection.to_node
      some (.ok (), s₂.updateEvaluationOrder)
    | _, _ => none

/-- A call to one of the public mutating operations. -/
inductive Op where
  | addNode (id : Nat)
  | removeNode (id : Nat)
  | addConn (from_node from_port to_node to_port : Nat) (dt : DataType)
  | removeConn (id : Nat)
  | markDirty (id : Nat)
  | clearDirty (id : Nat)
deriving DecidableEq, Repr

/-- Apply one call; the `Bool` records whether, for an `addConn` call, the
call returned `Ok` (`true` for every other call); `none` is a panic. -/
def applyOp (s : NodeGraph) : Op → Option (NodeGraph × Bool)
  | .addNode id => some ((s.addNode id).2, true)
  | .removeNode id => some ((s.removeNode id).2, true)
  | .addConn f fp t tp dt =>
    (s.addConnection f fp t tp dt).map
      (fun r => (r.2, match r.1 with | .ok _ => true | .error _ => false))
  | .removeConn id => (s.removeConnection id).map (fun r => (r.2, true))
  | .markDirty id => some (s.markDirty id, true)
  | .clearDirty id => some (s.clearDirty id, true)

/-- Run a sequence of calls from a state; the `Bool` is `true` when every
`addConn` call in the run returned `Ok`. -/
def runOps (s : NodeGraph) : List Op → Option (NodeGraph × Bool)
  | [] => some (s, true)
  | op :: ops =>
    match applyOp s op with
    | none => none
    | some (s', b) => (runOps s' ops).map (fun r => (r.1, b && r.2))

/-- Run a sequence of calls from the `Default` (empty) state. -/
def runTrace (ops : List Op) : Option (NodeGraph × Bool) :=
  runOps NodeGraph.new ops

/-- One directed edge step through an edge list (vertex positions). -/
def EdgeStep (E : List PEdge) (a b : Nat) : Prop :=
  ∃ e ∈ E, e.source = a ∧ e.target = b

/-- The edge list has no (nonempty) directed cycle. -/
def Acyclic (E : List PEdge) : Prop :=
  ∀ v, ¬ Relation.TransGen (EdgeStep E) v v

/-- A small accepted run used to instantiate the universally quantified
theorems: two nodes and one accepted connection. -/
def sampleOps : List Op :=
  [.addNode 0, .addNode 1, .addConn 0 0 1 0 .Float]

/-- The state reached by `sampleOps`. -/
def sampleState : NodeGraph :=
  match runTrace sampleOps with
  | some r => r.1
  | none => NodeGraph.new

/-- The state after adding the single node `5` (used as a concrete input for
the error-path theorems). -/
def oneNodeState : NodeGraph :=
  (NodeGraph.new.addNode 5).2

/-- The state returned by the self-edge request `5 -> 5` on `oneNodeState`
(the request is rejected, so this is `oneNodeState` again). -/
def selfEdgeResultState : NodeGraph :=
  match oneNodeState.addConnection 5 0 5 0 .Float with
  | some r => r.2
  | none => NodeGraph.new

/-- The two-node state `0`, `1` (a concrete input for witnesses). -/
def twoNodeState : NodeGraph := ((NodeGraph.new.addNode 0).2.addNode 1).2

/-- Result state of the accepted `add_connection 0 -> 1` on `twoNodeState`. -/
def afterAddConnState : NodeGraph :=
  match twoNodeState.addConnection 0 0 1 0 .Float with
  | some r => r.2
  | none => NodeGraph.new

/-- The connection stored under id `0` in `sampleState`. -/
def sampleConn : NodeConnection :=
  match alLookup sampleState.connections 0 with
  | some c => c
  | none =>
    { id := 0, from_node := 0, from_port := 0, to_node := 0, to_port := 0
      data_type := .Float }

/-- Result state of `remove_connection 0` on `sampleState`. -/
def afterRemoveConnState : NodeGraph :=
  match sampleState.removeConnection 0 with
  | some r => r.2
  | none => NodeGraph.new

/-- One directed edge step of the graph induced by the connection registry
(the spec-level graph on node identifiers): a step `a -> b` for every live
connection with `from_node = a` and `to_node = b`. -/
def ConnStep (s : NodeGraph) (a b : Nat) : Prop :=
  ∃ p ∈ s.connections, p.2.from_node = a ∧ p.2.to_node = b

/-- A run in which every `add_connection` call returns `Ok`, yet the final
connection registry holds a directed cycle: `remove_node 12` resolves `12`
through its stale `node_to_index` entry and deletes node `13`'s actual
vertex together with both existing edges, so the cycle guard for the last
`add_connection 13 -> 11` searches from a vertex with no outgoing edges and
accepts the closing connection. -/
def cycleTrapOps : List Op :=
  [.addNode 10, .addNode 11, .addNode 12, .removeNode 10,
    .addNode 13, .addNode 14, .addConn 11 0 13 0 .Float,
    .addConn 13 0 14 0 .Float, .removeNode 12, .addConn 13 0 11 0 .Float]

/-- The state reached by `cycleTrapOps`. -/
def cycleTrapState : NodeGraph :=
  match runTrace cycleTrapOps with
  | some r => r.1
  | none => NodeGraph.new

/-! ### Reachability facts about the cycle-guard DFS -/

theorem mem_outNeighbors {g : PGraph} {v w : Nat} :
    w ∈ g.outNeighbors v ↔ EdgeStep g.edges v w := by
  simp only [PGraph.outNeighbors, PGraph.outEdges, List.mem_map, List.mem_reverse,
    List.mem_filter, EdgeStep, decide_eq_true_eq]
  constructor
  · rintro ⟨e, ⟨he, hs⟩, ht⟩
    exact ⟨e, he, hs, ht⟩
  · rintro ⟨e, he, hs, ht⟩
    exact ⟨e, ⟨he, hs⟩, ht⟩

theorem closed_not_reach (g : PGraph) (visited : List Nat) (fromIdx : Nat)
    (hclosed : ∀ v ∈ visited, ∀ w, EdgeStep g.edges v w → w ∈ visited)
    (hf : fromIdx ∉ visited) :
    ∀ y, Relation.ReflTransGen (EdgeStep g.edges) y fromIdx → y ∈ visited → False := by
  intro y h
  induction h using Relation.ReflTransGen.head_induction_on with
  | refl => intro hmem; exact hf hmem
  | head step _ ih => intro hmem; exact ih (hclosed _ hmem _ step)

theorem dfsLoop_false_not_reach (g : PGraph) (fromIdx : Nat) :
    ∀ (fuel : Nat) (stack visited : List Nat),
      (∀ v ∈ visited, ∀ w, EdgeStep g.edges v w → w ∈ visited ∨ w ∈ stack) →
      fromIdx ∉ visited →
      dfsLoop g fromIdx fuel stack visited = false →
      ∀ y, (y ∈ stack ∨ y ∈ visited) →
        ¬ Relation.ReflTransGen (EdgeStep g.edges) y fromIdx := by
  intro fuel
  induction fuel with
  | zero =>
    intro stack visited _ _ hfalse
    simp [dfsLoop] at hfalse
  | succ fuel ih =>
    intro stack visited hclosed hf hfalse y hy
    cases stack with
    | nil =>
      have hclosed' : ∀ v ∈ visited, ∀ w, EdgeStep g.edges v w → w ∈ visited := by
        intro v hv w hw
        rcases hclosed v hv w hw with h | h
        · exact h
        · simp at h
      rcases hy with hy | hy
      · simp at hy
      · exact fun hr => closed_not_reach g visited fromIdx hclosed' hf y hr hy
    | cons current rest =>
      by_cases hcf : current = fromIdx
      · simp [dfsLoop, hcf] at hfalse
      · by_cases hcv : current ∈ visited
        · have hfalse' : dfsLoop g fromIdx fuel rest visited = false := by
            simpa [dfsLoop, hcf, hcv] using hfalse
          have hclosed' : ∀ v ∈ visited, ∀ w, EdgeStep g.edges v w →
              w ∈ visited ∨ w ∈ rest := by
            intro v hv w hw
            rcases hclosed v hv w hw with h | h
            · exact Or.inl h
            · rcases List.mem_cons.mp h with h | h
              · exact Or.inl (h ▸ hcv)
              · exact Or.inr h
          have hres := ih rest visited hclosed' hf hfalse'
          rcases hy with hy | hy
          · rcases List.mem_cons.mp hy with hy | hy
            · exact hres y (Or.inr (hy ▸ hcv))
            · exact hres y (Or.inl hy)
          · exact hres y (Or.inr hy)
        · have hfalse' : dfsLoop g fromIdx fuel
              (((g.outNeighbors current).filter (fun n => n ∉ visited)) ++ rest)
              (current :: visited) = false := by
            simpa [dfsLoop, hcf, hcv] using hfalse
          have hclosed' : ∀ v ∈ current :: visited, ∀ w, EdgeStep g.edges v w →
              w ∈ current :: visited ∨
              w ∈ ((g.outNeighbors current).filter (fun n => n ∉ visited)) ++ rest := by
            intro v hv w hw
            rcases List.mem_cons.mp hv with hv | hv
            · by_cases hwv : w ∈ visited
              · exact Or.inl (List.mem_cons_of_mem _ hwv)
              · refine Or.inr (List.mem_append_left _ ?_)
                refine List.mem_filter.mpr ⟨?_, by simpa using hwv⟩
                exact mem_outNeighbors.mpr (hv ▸ hw)
            · rcases hclosed v hv w hw with h | h
              · exact Or.inl (List.mem_cons_of_mem _ h)
              · rcases List.mem_cons.mp h with h | h
                · exact Or.inl (h ▸ List.mem_cons_self _ _)
                · exact Or.inr (List.mem_append_right _ h)
          have hf' : fromIdx ∉ current :: visited := by
            intro hmem
            rcases List.mem_cons.mp hmem with h | h
            · exact hcf h.symm
            · exact hf h
          have hres := ih _ _ hclosed' hf' hfalse'
          rcases hy with hy | hy
          · rcases List.mem_cons.mp hy with hy | hy
            · exact hres y (Or.inr (hy ▸ List.mem_cons_self _ _))
            · exact hres y (Or.inl (List.mem_append_right _ hy))
          · exact hres y (Or.inr (List.mem_cons_of_mem _ hy))

theorem would_create_cycle_false_not_reach {g : PGraph} {fi ti : Nat}
    (h : would_create_cycle g fi ti = false) :
    ¬ Relation.ReflTransGen (EdgeStep g.edges) ti fi := by
  have := dfsLoop_false_not_reach g fi (g.nodes.length + g.edges.length + 2)
    [ti] [] (by intro v hv; simp at hv) (by simp) h ti (Or.inl (by simp))
  exact this

/-! ### Acyclicity is preserved by every committed mutation -/

theorem edgeStep_append_single {E : List PEdge} {e : PEdge} {a b : Nat}
    (h : EdgeStep (E ++ [e]) a b) :
    EdgeStep E a b ∨ (a = e.source ∧ b = e.target) := by
  rcases h with ⟨e', he', hs, ht⟩
  rcases List.mem_append.mp he' with h | h
  · exact Or.inl ⟨e', h, hs, ht⟩
  · simp at h
    subst h
    exact Or.inr ⟨hs.symm, ht.symm⟩

theorem transGen_append_single {E : List PEdge} {e : PEdge} {a b : Nat}
    (h : Relation.TransGen (EdgeStep (E ++ [e])) a b) :
    Relation.TransGen (EdgeStep E) a b ∨
      (Relation.ReflTransGen (EdgeStep E) a e.source ∧
        Relation.ReflTransGen (EdgeStep E) e.target b) := by
  induction h with
  | single hstep =>
    rcases edgeStep_append_single hstep with h | ⟨hs, ht⟩
    · exact Or.inl (Relation.TransGen.single h)
    · exact Or.inr ⟨hs ▸ Relation.ReflTransGen.refl, ht ▸ Relation.ReflTransGen.refl⟩
  | tail _ hstep ih =>
    rcases edgeStep_append_single hstep with h | ⟨hs, ht⟩
    · rcases ih with ih | ⟨iha, ihb⟩
      · exact Or.inl (ih.tail h)
      · exact Or.inr ⟨iha, ihb.tail h⟩
    · rcases ih with ih | ⟨iha, _⟩
      · exact Or.inr ⟨hs ▸ ih.to_reflTransGen, ht ▸ Relation.ReflTransGen.refl⟩
      · exact Or.inr ⟨iha, ht ▸ Relation.ReflTransGen.refl⟩

theorem acyclic_addEdge {g : PGraph} {fi ti w : Nat}
    (hacy : Acyclic g.edges) (hwcc : would_create_cycle g fi ti = false) :
    Acyclic (g.addEdge fi ti w).edges := by
  intro v hv
  have hdec := transGen_append_single (E := g.edges)
    (e := { source := fi, target := ti, weight := w }) hv
  rcases hdec with h | ⟨ha, hb⟩
  · exact hacy v h
  · exact would_create_cycle_false_not_reach hwcc (hb.trans ha)

theorem acyclic_of_mem_subset {E E' : List PEdge}
    (hsub : ∀ e ∈ E', e ∈ E) (h : Acyclic E) : Acyclic E' := by
  intro v hv
  refine h v (hv.mono ?_)
  rintro a b ⟨e, he, hs, ht⟩
  exact ⟨e, hsub e he, hs, ht⟩

theorem acyclic_removeFoundEdge {g : PGraph} {a b : Nat}
    (h : Acyclic g.edges) : Acyclic (g.removeFoundEdge a b).edges := by
  refine acyclic_of_mem_subset ?_ h
  intro e he
  simp only [PGraph.removeFoundEdge, List.mem_reverse] at he
  exact List.mem_reverse.mp ((List.eraseP_sublist _).mem he)

theorem transGen_mapped_edges {E E' : List PEdge} {r : Nat → Nat} {a : Nat}
    (hpre : ∀ e' ∈ E', ∃ e ∈ E, e.source ≠ a ∧ e.target ≠ a ∧
      e'.source = r e.source ∧ e'.target = r e.target)
    (hinj : ∀ x y, x ≠ a → y ≠ a → r x = r y → x = y) :
    ∀ x y, Relation.TransGen (EdgeStep E') x y →
      ∃ x0 y0, x0 ≠ a ∧ y0 ≠ a ∧ r x0 = x ∧ r y0 = y ∧
        Relation.TransGen (EdgeStep E) x0 y0 := by
  intro x y h
  induction h with
  | single hstep =>
    rcases hstep with ⟨e', he', hs, ht⟩
    rcases hpre e' he' with ⟨e, he, hsa, hta, hrs, hrt⟩
    exact ⟨e.source, e.target, hsa, hta, by rw [← hrs, hs], by rw [← hrt, ht],
      Relation.TransGen.single ⟨e, he, rfl, rfl⟩⟩
  | tail _ hstep ih =>
    rcases ih with ⟨x0, b0, hx0, hb0, hrx, hrb, hp⟩
    rcases hstep with ⟨e', he', hs, ht⟩
    rcases hpre e' he' with ⟨e, he, hsa, hta, hrs, hrt⟩
    have hsb : e.source = b0 := by
      refine hinj _ _ hsa hb0 ?_
      rw [← hrs, hs, hrb]
    refine ⟨x0, e.target, hx0, hta, hrx, by rw [← hrt, ht], ?_⟩
    exact hp.tail ⟨e, he, hsb, rfl⟩

theorem acyclic_removeNode {g : PGraph} {a : Nat}
    (hacy : Acyclic g.edges) : Acyclic (g.removeNode a).edges := by
  by_cases h : a < g.nodes.length
  · simp only [PGraph.removeNode, h, dif_pos]
    intro v hv
    set lastIdx := g.nodes.length - 1 with hlast
    have hpre : ∀ e' ∈ (g.edges.filter
        (fun e => e.source ≠ a ∧ e.target ≠ a)).map
          (fun e => { e with
            source := if e.source = lastIdx then a else e.source,
            target := if e.target = lastIdx then a else e.target }),
        ∃ e ∈ g.edges, e.source ≠ a ∧ e.target ≠ a ∧
          e'.source = (if e.source = lastIdx then a else e.source) ∧
          e'.target = (if e.target = lastIdx then a else e.target) := by
      intro e' he'
      rcases List.mem_map.mp he' with ⟨e, he, rfl⟩
      have hmem := List.mem_filter.mp he
      have hcond : e.source ≠ a ∧ e.target ≠ a := by
        have := hmem.2
        simpa using this
      exact ⟨e, hmem.1, hcond.1, hcond.2, rfl, rfl⟩
    have hinj : ∀ x y : Nat, x ≠ a → y ≠ a →
        (if x = lastIdx then a else x) = (if y = lastIdx then a else y) →
        x = y := by
      intro x y hx hy hr
      by_cases hxl : x = lastIdx
      · by_cases hyl : y = lastIdx
        · rw [hxl, hyl]
        · rw [if_pos hxl, if_neg hyl] at hr
          exact absurd hr.symm hy
      · by_cases hyl : y = lastIdx
        · rw [if_neg hxl, if_pos hyl] at hr
          exact absurd hr hx
        · rwa [if_neg hxl, if_neg hyl] at hr
    rcases transGen_mapped_edges hpre hinj v v hv with
      ⟨x0, y0, hx0, hy0, hrx, hry, hp⟩
    have : x0 = y0 := hinj x0 y0 hx0 hy0 (by rw [hrx, hry])
    exact hacy x0 (this ▸ hp)
  · simpa [PGraph.removeNode, h] using hacy

theorem markDirty_graph (s : NodeGraph) (n : Nat) :
    (s.markDirty n).graph = s.graph := rfl

theorem updateEvaluationOrder_graph (s : NodeGraph) :
    s.updateEvaluationOrder.graph = s.graph := rfl

theorem addNode_acyclic {s : NodeGraph} {id : Nat}
    (hacy : Acyclic s.graph.edges) : Acyclic (s.addNode id).2.graph.edges := by
  unfold NodeGraph.addNode
  split
  · exact hacy
  · simpa [NodeGraph.markDirty, NodeGraph.updateEvaluationOrder,
      PGraph.addNode] using hacy

theorem removeNode_acyclic {s : NodeGraph} {id : Nat}
    (hacy : Acyclic s.graph.edges) : Acyclic (s.removeNode id).2.graph.edges := by
  unfold NodeGraph.removeNode
  split
  · exact hacy
  · exact acyclic_removeNode hacy

theorem addConnection_acyclic {s : NodeGraph} {f fp t tp : Nat} {dt : DataType}
    {r : Except GraphError Nat} {s' : NodeGraph}
    (hacy : Acyclic s.graph.edges)
    (h : s.addConnection f fp t tp dt = some (r, s')) :
    Acyclic s'.graph.edges := by
  unfold NodeGraph.addConnection at h
  split at h
  · rcases Option.some.inj h with h'
    rw [← (Prod.mk.injEq _ _ _ _).mp h' |>.2]
    exact hacy
  · split at h
    · rcases Option.some.inj h with h'
      rw [← (Prod.mk.injEq _ _ _ _).mp h' |>.2]
      exact hacy
    · split at h
      · rcases Option.some.inj h with h'
        rw [← (Prod.mk.injEq _ _ _ _).mp h' |>.2]
        exact hacy
      · rename_i hwcc
        split at h
        · rcases Option.some.inj h with h'
          rw [← (Prod.mk.injEq _ _ _ _).mp h' |>.2]
          simp only [updateEvaluationOrder_graph, markDirty_graph]
          exact acyclic_addEdge hacy (Bool.not_eq_true _ ▸ hwcc)
        · exact absurd h (by simp)

theorem removeConnection_acyclic {s : NodeGraph} {cid : Nat}
    {r : Except GraphError Unit} {s' : NodeGraph}
    (hacy : Acyclic s.graph.edges)
    (h : s.removeConnection cid = some (r, s')) :
    Acyclic s'.graph.edges := by
  unfold NodeGraph.removeConnection at h
  split at h
  · rcases Option.some.inj h with h'
    rw [← (Prod.mk.injEq _ _ _ _).mp h' |>.2]
    exact hacy
  · split at h
    · rcases Option.some.inj h with h'
      rw [← (Prod.mk.injEq _ _ _ _).mp h' |>.2]
      simp only [updateEvaluationOrder_graph, markDirty_graph]
      split
      · exact acyclic_removeFoundEdge hacy
      · exact hacy
    · exact absurd h (by simp)

theorem applyOp_acyclic {s : NodeGraph} {op : Op} {s' : NodeGraph} {b : Bool}
    (hacy : Acyclic s.graph.edges) (h : applyOp s op = some (s', b)) :
    Acyclic s'.graph.edges := by
  cases op with
  | addNode id =>
    rcases Option.some.inj h with h'
    rw [← (Prod.mk.injEq _ _ _ _).mp h' |>.1]
    exact addNode_acyclic hacy
  | removeNode id =>
    rcases Option.some.inj h with h'
    rw [← (Prod.mk.injEq _ _ _ _).mp h' |>.1]
    exact removeNode_acyclic hacy
  | addConn f fp t tp dt =>
    simp only [applyOp, Option.map_eq_some'] at h
    rcases h with ⟨⟨r, s₁⟩, hcall, heq⟩
    have : s₁ = s' := congrArg Prod.fst heq
    exact this ▸ addConnection_acyclic hacy hcall
  | removeConn id =>
    simp only [applyOp, Option.map_eq_some'] at h
    rcases h with ⟨⟨r, s₁⟩, hcall, heq⟩
    have : s₁ = s' := congrArg Prod.fst heq
    exact this ▸ removeConnection_acyclic hacy hcall
  | markDirty id =>
    rcases Option.some.inj h with h'
    rw [← (Prod.mk.injEq _ _ _ _).mp h' |>.1]
    exact hacy
  | clearDirty id =>
    rcases Option.some.inj h with h'
    rw [← (Prod.mk.injEq _ _ _ _).mp h' |>.1]
    exact hacy

theorem runOps_acyclic :
    ∀ (ops : List Op) (s s' : NodeGraph) (b : Bool),
      Acyclic s.graph.edges → runOps s ops = some (s', b) →
      Acyclic s'.graph.edges := by
  intro ops
  induction ops with
  | nil =>
    intro s s' b hacy h
    simp only [runOps] at h
    rcases Option.some.inj h with h'
    rw [← (Prod.mk.injEq _ _ _ _).mp h' |>.1]
    exact hacy
  | cons op ops ih =>
    intro s s' b hacy h
    simp only [runOps] at h
    rcases hstep : applyOp s op with _ | p
    · rw [hstep] at h; simp at h
    · rw [hstep] at h
      simp only [Option.map_eq_some'] at h
      rcases h with ⟨r, hrun, heq⟩
      have hs' : r.1 = s' := congrArg Prod.fst heq
      exact hs' ▸ ih p.1 r.1 r.2 (applyOp_acyclic hacy hstep) hrun

theorem new_acyclic : Acyclic NodeGraph.new.graph.edges := by
  intro v hv
  have hno : ∀ a b : Nat, ¬ EdgeStep NodeGraph.new.graph.edges a b := by
    rintro a b ⟨e, he, _⟩
    simp [NodeGraph.new, PGraph.empty] at he
  cases hv with
  | single h => exact hno _ _ h
  | tail _ h => exact hno _ _ h

/-! ### Claims -/

/-- The internal position-indexed `petgraph` edge list stays acyclic over
every run (every committed edge passes the DFS check against the vertices it
is actually attached to, and removals only shrink or relabel that list).
This is strictly weaker than acyclicity of the connection registry on node
identifiers: the two diverge once the index maps go stale, see the C1
counterexample below. -/
theorem runs_keep_internal_edge_list_acyclic (ops : List Op) (s : NodeGraph)
    (h : runTrace ops = some (s, true)) : Acyclic s.graph.edges :=
  runOps_acyclic ops NodeGraph.new s true new_acyclic h

/-- Instance of the internal edge-list invariant at the run `sampleOps`. -/
theorem runs_keep_internal_edge_list_acyclic_witness :
    Acyclic sampleState.graph.edges :=
  runs_keep_internal_edge_list_acyclic sampleOps sampleState (by decide)

/-- C1 fails on the code: on `cycleTrapOps` every `add_connection` call
returns `Ok` (the run flag is `true`), yet the resulting registry holds the
connections `11 -> 13` and `13 -> 11` — a directed cycle between the live
nodes `11` and `13` in the graph the spec defines (vertices = live node ids,
edges = live connections).  The stale `node_to_index` entry of node `12`
made `remove_node 12` delete node `13`'s actual vertex and both edges, so
the cycle guard for `add_connection 13 -> 11` searched a vertex with no
outgoing edges and accepted the closing edge. -/
theorem accepted_run_yields_cyclic_connection_graph :
    (runTrace cycleTrapOps).map (fun r => r.2) = some true ∧
    cycleTrapState.isLive 11 = true ∧
    cycleTrapState.isLive 13 = true ∧
    Relation.TransGen (ConnStep cycleTrapState) 11 11 := by
  refine ⟨by decide, by decide, by decide, ?_⟩
  have h1 : ConnStep cycleTrapState 11 13 :=
    ⟨(0, { id := 0, from_node := 11, from_port := 0, to_node := 13,
           to_port := 0, data_type := .Float }), by decide, rfl, rfl⟩
  have h2 : ConnStep cycleTrapState 13 11 :=
    ⟨(2, { id := 2, from_node := 13, from_port := 0, to_node := 11,
           to_port := 0, data_type := .Float }), by decide, rfl, rfl⟩
  exact Relation.TransGen.head h1 (Relation.TransGen.single h2)

/-- C2 fails on the code: after `add_node 0; add_node 1; add_node 2;
remove_node 1` (all successful), node `2` is live but
`evaluation_order()` is `[0]` — the swap-removed vertex mapping goes stale
and Kahn's loop drops the vertex whose index has no `index_to_node` entry. -/
theorem swap_remove_breaks_order_completeness :
    (runTrace [.addNode 0, .addNode 1, .addNode 2, .removeNode 1]).map
      (fun r => (r.1.isLive 2, r.1.evaluationOrder)) =
    some (true, [0]) := by decide

/-- C3 fails on the code: after `add_node 0; add_node 1; add_node 2;
add_connection 0 -> 2; remove_node 1`, the registry still holds the
connection `0 -> 2` but `evaluation_order()` is `[0]`, so `2` does not appear
at all — let alone strictly after `0`. -/
theorem swap_remove_breaks_topological_validity :
    (runTrace [.addNode 0, .addNode 1, .addNode 2, .addConn 0 0 2 0 .Float,
        .removeNode 1]).map
      (fun r => (r.1.connections.map (fun p => (p.2.from_node, p.2.to_node)),
        r.1.evaluationOrder)) =
    some ([(0, 2)], [0]) := by decide

/-- C4 fails on the code: after `add_node 0; add_node 1; add_node 2;
remove_node 1`, `node_to_index` still maps node `2` to position `2`, but the
graph has only positions `0` and `1` and its vertex at position `1` carries
node `2`, which `index_to_node` does not mention. -/
theorem swap_remove_breaks_index_maps :
    (runTrace [.addNode 0, .addNode 1, .addNode 2, .removeNode 1]).map
      (fun r => (alLookup r.1.node_to_index 2, r.1.graph.nodes.length,
        r.1.graph.nodes[1]?, alLookup r.1.index_to_node 1)) =
    some (some 2, 2, some 2, none) := by decide

/-- C5 fails on the code: with two parallel connections `0 -> 1` (ids `0`
then `1`, on different ports), `remove_connection 0` deletes connection `0`
from the registry but removes the edge of connection `1` — `find_edge`
returns the newest edge between the endpoints — leaving the graph with the
edge weighted `0` while the registry holds only connection `1`. -/
theorem remove_connection_removes_newest_parallel_edge :
    (runTrace [.addNode 0, .addNode 1, .addConn 0 0 1 0 .Float,
        .addConn 0 1 1 1 .Float, .removeConn 0]).map
      (fun r => (r.1.graph.edges.map (fun e => e.weight),
        r.1.connections.map (fun p => p.1))) =
    some ([0], [1]) := by decide

/-! ### Dirty-set lemmas -/

theorem mem_dsInsert_self (s : List Nat) (x : Nat) : x ∈ (dsInsert s x).1 := by
  unfold dsInsert
  split
  · assumption
  · simp

theorem mem_dsInsert_of_mem {s : List Nat} {x : Nat} (y : Nat)
    (h : x ∈ s) : x ∈ (dsInsert s y).1 := by
  unfold dsInsert
  split
  · exact h
  · exact List.mem_append_left _ h

theorem propagateGo_mono (g : PGraph) (n2i i2n : List (Nat × Nat)) :
    ∀ (fuel : Nat) (arg : Sum Nat (List Nat)) (dirty : List Nat) (x : Nat),
      x ∈ dirty → x ∈ propagateGo g n2i i2n fuel arg dirty := by
  intro fuel
  induction fuel with
  | zero => intro arg dirty x hx; simpa [propagateGo] using hx
  | succ fuel ih =>
    intro arg dirty x hx
    match arg with
    | .inl node =>
      unfold propagateGo
      cases alLookup n2i node with
      | none => simpa using hx
      | some idx => simpa using ih _ _ _ hx
    | .inr [] => simpa [propagateGo] using hx
    | .inr (dn :: rest) =>
      unfold propagateGo
      simp only []
      split
      · exact ih _ _ _ (ih _ _ _ (mem_dsInsert_of_mem dn hx))
      · exact ih _ _ _ hx

theorem markDirty_mem (s : NodeGraph) (n : Nat) :
    n ∈ (s.markDirty n).dirty_nodes := by
  unfold NodeGraph.markDirty propagateDirty
  exact propagateGo_mono _ _ _ _ _ _ _ (mem_dsInsert_self _ _)

/-- C6 fails as stated: `remove_node 0` cascades away the connection
`0 -> 1` while node `1` stays live, yet `1` is not in `dirty_nodes()` —
the cascade never marks the downstream endpoints of the removed
connections dirty. -/
theorem remove_node_cascade_leaves_downstream_clean :
    (runTrace [.addNode 0, .addNode 1, .addConn 0 0 1 0 .Float,
        .clearDirty 0, .clearDirty 1, .removeNode 0]).map
      (fun r => (r.1.isLive 1, r.1.connections.length, r.1.dirtyNodes)) =
    some (true, 0, []) := by decide

/-- C6 amended: `add_connection` and `remove_connection` do mark the affected
`to_node` dirty when they succeed; only `remove_node`'s cascade leaves the
downstream endpoints of the removed connections clean. -/
theorem connection_mutations_mark_to_node_dirty (s : NodeGraph) :
    (∀ (f fp t tp : Nat) (dt : DataType) (cid : Nat) (s' : NodeGraph),
      s.addConnection f fp t tp dt = some (.ok cid, s') →
      t ∈ s'.dirtyNodes) ∧
    (∀ (cid : Nat) (c : NodeConnection) (s' : NodeGraph),
      alLookup s.connections cid = some c →
      s.removeConnection cid = some (.ok (), s') →
      c.to_node ∈ s'.dirtyNodes) := by
  constructor
  · intro f fp t tp dt cid s' h
    unfold NodeGraph.addConnection at h
    split at h
    · simp at h
    · split at h
      · simp at h
      · split at h
        · simp at h
        · split at h
          · rcases Option.some.inj h with h'
            have hs' := (Prod.mk.injEq _ _ _ _).mp h' |>.2
            rw [← hs']
            exact markDirty_mem _ _
          · simp at h
  · intro cid c s' hc h
    unfold NodeGraph.removeConnection at h
    rw [hc] at h
    have h' : (match alLookup s.node_to_index c.from_node,
        alLookup s.node_to_index c.to_node with
      | some from_index, some to_index =>
        some (Except.ok (),
          (({ s with
              connections := alRemove s.connections cid
              graph := match s.graph.findEdge from_index to_index with
                | some _ => s.graph.removeFoundEdge from_index to_index
                | none => s.graph }).markDirty
            c.to_node).updateEvaluationOrder)
      | _, _ => none) = some (Except.ok (), s') := h
    cases hf : alLookup s.node_to_index c.from_node with
    | none => rw [hf] at h'; simp at h'
    | some fi =>
      cases ht : alLookup s.node_to_index c.to_node with
      | none => rw [hf, ht] at h'; simp at h'
      | some ti =>
        rw [hf, ht] at h'
        simp only [Option.some.injEq, Prod.mk.injEq] at h'
        rw [← h'.2]
        exact markDirty_mem _ _

/-- Witness for the amended C6 at concrete inputs. -/
theorem connection_mutations_mark_to_node_dirty_witness :
    1 ∈ afterAddConnState.dirtyNodes ∧
    sampleConn.to_node ∈ afterRemoveConnState.dirtyNodes :=
  ⟨(connection_mutations_mark_to_node_dirty twoNodeState).1
      0 0 1 0 .Float 0 afterAddConnState (by rfl),
    (connection_mutations_mark_to_node_dirty sampleState).2
      0 sampleConn afterRemoveConnState (by rfl) (by rfl)⟩

/-- C7: whenever `add_connection` returns `Err(CycleDetected)` the engine
state is unchanged — the cycle check runs before any edge, registry, dirty
or order mutation, and the error path returns early. -/
theorem cycle_detected_leaves_state_unchanged (s : NodeGraph)
    (f fp t tp : Nat) (dt : DataType) (s' : NodeGraph)
    (h : s.addConnection f fp t tp dt = some (.error .CycleDetected, s')) :
    s' = s := by
  unfold NodeGraph.addConnection at h
  split at h
  · simp at h
  · split at h
    · simp at h
    · split at h
      · simp at h
        exact h.symm
      · split at h
        · simp at h
        · simp at h

/-- Witness for C7: a rejected self-edge request on a one-node state. -/
theorem cycle_detected_leaves_state_unchanged_witness :
    selfEdgeResultState = oneNodeState :=
  cycle_detected_leaves_state_unchanged oneNodeState 5 0 5 0 .Float
    selfEdgeResultState (by rfl)

/-- C8 fails on the code: a reachable state holds the registry chain
`11 -> 13 -> 14` while node `13`'s actual vertex was deleted by a stale-index
`remove_node` (of the unrelated node `12`), so `mark_dirty 11` propagates
along no edges and leaves `13` and `14` clean. -/
theorem stale_index_breaks_dirty_propagation_chain :
    (runTrace [.addNode 10, .addNode 11, .addNode 12, .removeNode 10,
        .addNode 13, .addNode 14, .addConn 11 0 13 0 .Float,
        .addConn 13 0 14 0 .Float, .clearDirty 10, .clearDirty 11,
        .clearDirty 12, .clearDirty 13, .clearDirty 14, .removeNode 12,
        .markDirty 11]).map
      (fun r => (r.1.connections.map (fun p => (p.2.from_node, p.2.to_node)),
        r.1.dirtyNodes)) =
    some ([(11, 13), (13, 14)], [11]) := by decide

theorem would_create_cycle_self (g : PGraph) (i : Nat) :
    would_create_cycle g i i = true := by
  show dfsLoop g i (g.nodes.length + g.edges.length + 1 + 1) [i] [] = true
  simp [dfsLoop]

/-- C9 fails as stated when both endpoints are dead: with `88` a non-live
endpoint of the request, the call reports the other (first-checked) missing
endpoint `77`, not `88`. -/
theorem node_not_found_names_first_missing_endpoint :
    oneNodeState.isLive 88 = false ∧
    oneNodeState.addConnection 77 0 88 0 .Float =
      some (.error (.NodeNotFound 77), oneNodeState) ∧
    GraphError.NodeNotFound 77 ≠ GraphError.NodeNotFound 88 :=
  ⟨by rfl, by rfl, by decide⟩

/-- C9 amended: a self-edge request on a live node fails with
`CycleDetected`; a request whose `from_node` is absent fails with
`NodeNotFound(from_node)`; a request with a live `from_node` and an absent
`to_node` fails with `NodeNotFound(to_node)` — so a request with exactly one
absent endpoint `m` fails with `NodeNotFound(m)` — and in every such case
the state is returned unchanged. -/
theorem malformed_add_connection_rejected (s : NodeGraph)
    (n m f p q : Nat) (dt : DataType) :
    (s.isLive n = true →
      s.addConnection n p n q dt = some (.error .CycleDetected, s)) ∧
    (s.isLive m = false →
      s.addConnection m p f q dt = some (.error (.NodeNotFound m), s)) ∧
    (s.isLive f = true → s.isLive m = false →
      s.addConnection f p m q dt = some (.error (.NodeNotFound m), s)) := by
  refine ⟨?_, ?_, ?_⟩
  · intro h
    rcases Option.isSome_iff_exists.mp h with ⟨i, hi⟩
    simp [NodeGraph.addConnection, hi, would_create_cycle_self]
  · intro h
    cases hl : alLookup s.node_to_index m with
    | none => simp [NodeGraph.addConnection, hl]
    | some v => rw [NodeGraph.isLive, hl] at h; simp at h
  · intro hf hm
    rcases Option.isSome_iff_exists.mp hf with ⟨i, hi⟩
    cases hl : alLookup s.node_to_index m with
    | none => simp [NodeGraph.addConnection, hi, hl]
    | some v => rw [NodeGraph.isLive, hl] at hm; simp at hm

/-- Witness for the amended C9 at concrete inputs on `oneNodeState`. -/
theorem malformed_add_connection_rejected_witness :
    (oneNodeState.addConnection 77 0 88 0 .Float =
      some (.error (.NodeNotFound 77), oneNodeState)) ∧
    (oneNodeState.addConnection 5 0 5 0 .Float =
      some (.error .CycleDetected, oneNodeState)) ∧
    (oneNodeState.addConnection 5 0 88 0 .Float =
      some (.error (.NodeNotFound 88), oneNodeState)) :=
  ⟨(malformed_add_connection_rejected oneNodeState 5 77 88 0 0 .Float).2.1
      (by rfl),
    (malformed_add_connection_rejected oneNodeState 5 88 5 0 0 .Float).1
      (by rfl),
    (malformed_add_connection_rejected oneNodeState 5 88 5 0 0 .Float).2.2
      (by rfl) (by rfl)⟩

theorem propagateGo_inl_none {g : PGraph} {n2i i2n : List (Nat × Nat)}
    {fuel node : Nat} {dirty : List Nat}
    (h : alLookup n2i node = none) :
    propagateGo g n2i i2n (fuel + 1) (.inl node) dirty = dirty := by
  unfold propagateGo
  rw [h]

/-- C10: for a node id that is not live, the public `mark_dirty` succeeds,
inserts exactly that id into `dirty_nodes()` (the dirty set is not restricted
to live nodes) and leaves the graph, the connection registry and the
evaluation order unchanged; `clear_dirty` is total and only removes the id
from the dirty set. -/
theorem mark_and_clear_dirty_on_unknown_id (s : NodeGraph) (id : Nat)
    (h : s.isLive id = false) :
    id ∈ (s.markDirty id).dirtyNodes ∧
    (s.markDirty id).dirty_nodes = (dsInsert s.dirty_nodes id).1 ∧
    (s.markDirty id).graph = s.graph ∧
    (s.markDirty id).connections = s.connections ∧
    (s.markDirty id).evaluationOrder = s.evaluationOrder ∧
    s.clearDirty id = { s with dirty_nodes := dsRemove s.dirty_nodes id } := by
  have hnone : alLookup s.node_to_index id = none := by
    cases hl : alLookup s.node_to_index id with
    | none => rfl
    | some v => rw [NodeGraph.isLive, hl] at h; simp at h
  refine ⟨markDirty_mem s id, ?_, rfl, rfl, rfl, rfl⟩
  unfold NodeGraph.markDirty propagateDirty
  exact propagateGo_inl_none hnone

/-- Witness for C10 on `sampleState` with the non-live id `99`. -/
theorem mark_and_clear_dirty_on_unknown_id_witness :
    99 ∈ (sampleState.markDirty 99).dirtyNodes ∧
    (sampleState.markDirty 99).dirty_nodes =
      (dsInsert sampleState.dirty_nodes 99).1 ∧
    (sampleState.markDirty 99).graph = sampleState.graph ∧
    (sampleState.markDirty 99).connections = sampleState.connections ∧
    (sampleState.markDirty 99).evaluationOrder = sampleState.evaluationOrder ∧
    sampleState.clearDirty 99 =
      { sampleState with dirty_nodes := dsRemove sampleState.dirty_nodes 99 } :=
  mark_and_clear_dirty_on_unknown_id sampleState 99 (by rfl)
